import Mathlib

/-!
Verification development for the meeting-summarization pipeline in
`src/meeting_app/cli.py`.  Each definition is a shallow embedding of the
corresponding Python function; text is modelled as `List Char` (Python
`str` indexing is by code point), the LLM endpoint is modelled as an
oracle, and machine floats for backoff delays are modelled as exact
rationals (`BACKOFF_BASE ** attempt` with no rounding, matching the
formula the code computes).
-/

namespace MeetingApp

/-! ### Configuration defaults (cli.py lines 27-40) -/

def DEFAULT_CHUNK_SIZE : Nat := 4000
def PART_MAX : Nat := 500
def FINAL_MAX : Nat := 900
def TRANSLATE_MAX : Nat := 900
def TEMP_SUMMARY : ℚ := 2/10
def TEMP_TRANSLATE : ℚ := 1/10
def RETRIES : Nat := 4
def BACKOFF_BASE : ℚ := 3/2

/-- The constant `PL_CHARS` (cli.py line 45): the diacritic characters unique to Polish,
in both cases. -/
def PL_CHARS : List Char := "ąćęłńóśżźĄĆĘŁŃÓŚŻŹ".toList

/-! ### Language gate (cli.py lines 171-180, `detect_lang_from_text`)

The Python code counts characters of the sample lying in `PL_CHARS`, and
counts whole-word regex matches (`\b(w1|...|wk)\b` over `sample.lower()`)
against a fixed Polish and a fixed English stop-word list.  Whole-word
matches of a fixed alphabetic word against `\b` boundaries are exactly the
maximal word-character runs of the text that equal the word, so the regex
count is embedded as: tokenize the lowered sample into maximal runs of
word characters, and count the tokens belonging to the list.  Word
characters are modelled as ASCII alphanumerics, underscore, and the Polish
diacritics — the portion of Python's Unicode `\w` relevant to the two
alphabets involved. -/

def plStopWords : List (List Char) :=
  ["i", "że", "nie", "się", "jest", "dla", "z", "na", "do", "w",
   "oraz", "tak", "tego", "też", "czy", "jak"].map String.toList

def enStopWords : List (List Char) :=
  ["the", "and", "to", "of", "in", "is", "for", "we", "you", "that",
   "it", "with", "this", "are"].map String.toList

/-- Lower-casing as Python `str.lower` acts on the characters occurring
here: ASCII letters plus the nine Polish uppercase diacritics. -/
def toLowerPl (c : Char) : Char :=
  if c = 'Ą' then 'ą'
  else if c = 'Ć' then 'ć'
  else if c = 'Ę' then 'ę'
  else if c = 'Ł' then 'ł'
  else if c = 'Ń' then 'ń'
  else if c = 'Ó' then 'ó'
  else if c = 'Ś' then 'ś'
  else if c = 'Ż' then 'ż'
  else if c = 'Ź' then 'ź'
  else c.toLower

def isWordChar (c : Char) : Bool :=
  c.isAlphanum || c = '_' || decide (c ∈ PL_CHARS)

/-- Accumulator-style tokenizer: splits a character list into its maximal
runs of word characters (the `acc` parameter holds the current run,
reversed). -/
def wordTokensAux : List Char → List Char → List (List Char)
  | [], acc => if acc.isEmpty then [] else [acc.reverse]
  | c :: rest, acc =>
    if isWordChar c then wordTokensAux rest (c :: acc)
    else if acc.isEmpty then wordTokensAux rest []
    else acc.reverse :: wordTokensAux rest []

def wordTokens (s : List Char) : List (List Char) :=
  wordTokensAux s []

/-- Number of whole-word matches of the stop-word list `stop` in `s`:
the count of maximal word-character runs of `s` equal to a listed word. -/
def countStop (stop : List (List Char)) (s : List Char) : Nat :=
  ((wordTokens s).filter (fun t => decide (t ∈ stop))).length

/-- The count `pl_char_hits` (cli.py line 172): occurrences of Polish diacritics. -/
def plCharHits (sample : List Char) : Nat :=
  (sample.filter (fun c => decide (c ∈ PL_CHARS))).length

/-- The language gate `detect_lang_from_text` (cli.py lines 171-180). -/
def detect_lang_from_text (sample : List Char) : String :=
  let low := sample.map toLowerPl
  let pl_words := countStop plStopWords low
  let en_words := countStop enStopWords low
  let score_pl := plCharHits sample * 2 + pl_words
  if max 2 en_words ≤ score_pl then "pl" else "en"

/-! ### Resilient completion client (cli.py lines 134-165, `call_llm`)

One `_post_chat` round trip is modelled by its observable outcome: a
successful response whose JSON carries `choices[0].message.content`, an
`urllib.error.HTTPError` with a status code and a body, or any other
exception (transport failure, timeout, malformed JSON shape) carrying a
message.  The endpoint is an oracle from the 1-based attempt number to
the outcome of that attempt. -/

inductive LLMResponse where
  | success (content : String)
  | httpError (code : Nat) (body : String)
  | otherError (msg : String)
deriving DecidableEq

/-- Outcome of `call_llm`: the returned content, the `RuntimeError` raised
for an HTTP error (carrying status and body, cli.py line 158), the
`RuntimeError` raised for any other exception (wrapping its text, line
165), or Python's implicit `None` when the `for` loop body never runs
(`RETRIES = 0`). -/
inductive CallResult where
  | ok (content : String)
  | fatalHTTP (code : Nat) (body : String)
  | fatalOther (msg : String)
  | pyNone
deriving DecidableEq

/-- Observable trace of one `call_llm` invocation: how many attempts were
performed, the delays slept between attempts (in order), and the result. -/
structure CallTrace where
  attempts : Nat
  sleeps : List ℚ
  result : CallResult
deriving DecidableEq

def transientCode (code : Nat) : Bool :=
  code = 429 || code = 500 || code = 503 || code = 504

/-- The retry loop of `call_llm` from a given attempt on.  `remaining` is
`RETRIES - attempt`, so the source's guard `attempt < RETRIES` is
`remaining ≠ 0`; at `remaining = 0` the source raises the same error
whether or not the HTTP status is transient, since the conjunction
`e.code in (429, 500, 503, 504) and attempt < RETRIES` is false either
way.  The slept delay is `BACKOFF_BASE ** attempt` (cli.py lines 154
and 161). -/
def call_llm_loop (endpoint : Nat → LLMResponse) : Nat → Nat → CallTrace
  | 0, attempt =>
    match endpoint attempt with
    | .success c => ⟨1, [], .ok c⟩
    | .httpError code body => ⟨1, [], .fatalHTTP code body⟩
    | .otherError m => ⟨1, [], .fatalOther m⟩
  | r + 1, attempt =>
    match endpoint attempt with
    | .success c => ⟨1, [], .ok c⟩
    | .httpError code body =>
      if transientCode code then
        ⟨(call_llm_loop endpoint r (attempt + 1)).attempts + 1,
         BACKOFF_BASE ^ attempt :: (call_llm_loop endpoint r (attempt + 1)).sleeps,
         (call_llm_loop endpoint r (attempt + 1)).result⟩
      else ⟨1, [], .fatalHTTP code body⟩
    | .otherError _ =>
      ⟨(call_llm_loop endpoint r (attempt + 1)).attempts + 1,
       BACKOFF_BASE ^ attempt :: (call_llm_loop endpoint r (attempt + 1)).sleeps,
       (call_llm_loop endpoint r (attempt + 1)).result⟩

/-- The client entry `call_llm` (cli.py lines 147-165): attempts run from 1 to `retries`. -/
def call_llm (endpoint : Nat → LLMResponse) (retries : Nat) : CallTrace :=
  match retries with
  | 0 => ⟨0, [], .pyNone⟩
  | r + 1 => call_llm_loop endpoint r 1

/-! ### Chunker (cli.py lines 248-249, `chunk_text`)

`[text[i:i + size] for i in range(0, len(text), size)]` over a sequence:
consecutive slices of length `size`, the last possibly shorter.  The same
slicing pattern reappears on lists of partial summaries in
`summarize_final_two_step` (line 376), so the slicing is defined
polymorphically.  Structural recursion uses the list length as fuel; any
fuel at least the length yields the same value (proved below). -/

def chunk_list_aux {α : Type} : Nat → List α → Nat → List (List α)
  | 0, _, _ => []
  | _, [], _ => []
  | fuel + 1, a :: l, size =>
    (a :: l).take size :: chunk_list_aux fuel ((a :: l).drop size) size

def chunk_list {α : Type} (l : List α) (size : Nat) : List (List α) :=
  chunk_list_aux l.length l size

/-- The chunker `chunk_text` (cli.py lines 248-249), on text as a character list. -/
def chunk_text (text : List Char) (size : Nat) : List (List Char) :=
  chunk_list text size

/-! ### Prompts and the map/reduce stages (cli.py lines 252-398)

One chat-completion request is recorded as the system message, the user
message (templates already formatted, i.e. after Python `str.format`),
and the `max_tokens` / `temperature` bounds of the call. -/

structure LLMRequest where
  system : String
  user : String
  maxTokens : Nat
  temperature : ℚ
deriving DecidableEq

def part_system (lang : String) : String :=
  if lang = "pl" then "Jesteś precyzyjnym analitykiem spotkań. Odpowiadasz po polsku."
  else "You are precise and structured."

/-- The per-chunk user prompt (cli.py lines 258-282) with `part`
substituted for the template hole. -/
def part_user (lang : String) (part : String) : String :=
  if lang = "pl" then
    "Podsumuj poniższy fragment transkrypcji spotkania.\n\nZwróć:\n- Najważniejsze punkty\n- Decyzje\n- Zadania do wykonania\n- Ryzyka\n\nTranskrypcja:\n" ++ part ++ "\n"
  else
    "Summarize this meeting section.\n\nReturn:\n- Key points\n- Decisions\n- Action items\n- Risks\n\nTranscript:\n" ++ part ++ "\n"

def reduce_system (lang : String) : String :=
  if lang = "pl" then "Jesteś precyzyjnym analitykiem spotkań. Odpowiadasz po polsku."
  else "You are a precise meeting analyst."

/-- The group-reduce user prompt (cli.py lines 326-336 / 351-361) with the
newline-joined group substituted for the template hole. -/
def reduce_user (lang : String) (items : String) : String :=
  if lang = "pl" then
    "Połącz poniższe częściowe podsumowania w JEDNO krótkie podsumowanie.\n\nZwróć:\n- Najważniejsze punkty\n- Decyzje\n- Zadania do wykonania\n- Ryzyka\n\nPodsumowania:\n" ++ items ++ "\n"
  else
    "Combine the following partial summaries into ONE compact summary.\n\nReturn:\n- Key points\n- Decisions\n- Action items\n- Risks\n\nSummaries:\n" ++ items ++ "\n"

def final_system (lang : String) : String :=
  if lang = "pl" then "Jesteś asystentem zarządu. Odpowiadasz po polsku, rzeczowo i klarownie."
  else "You are a precise executive assistant."

/-- The final combine user prompt (cli.py lines 338-348 / 363-373) with the
newline-joined reduced summaries substituted for the template hole. -/
def final_user (lang : String) (items : String) : String :=
  if lang = "pl" then
    "Na podstawie poniższych podsumowań przygotuj JEDNO finalne podsumowanie spotkania.\n\nStruktura:\n1) Podsumowanie wykonawcze (5–8 zdań)\n2) Decyzje kluczowe\n3) Zadania do wykonania\n4) Ryzyka\n\nPodsumowania:\n" ++ items ++ "\n"
  else
    "Based on the summaries below, create ONE final executive summary.\n\nStructure:\n1) Executive Summary (5–8 sentences)\n2) Key decisions\n3) Action items\n4) Risks\n\nSummaries:\n" ++ items ++ "\n"

/-- Newline joining, `chr(10).join(...)` (cli.py lines 381 and 392). -/
def joinNl (items : List String) : String :=
  String.intercalate "\n" items

/-- The map stage `summarize_parts` (cli.py lines 252-299): one completion call per
chunk, in chunk order.  `oracle k` is the content returned by the k-th
call issued by this function (0-based); the returned pair is the list of
partial summaries and the list of requests issued, in order. -/
def summarize_parts (oracle : Nat → String) (text : List Char)
    (chunk_size : Nat) (lang : String) : List String × List LLMRequest :=
  let parts := chunk_text text chunk_size
  let reqs := parts.map (fun part =>
    LLMRequest.mk (part_system lang) (part_user lang (String.mk part)) PART_MAX TEMP_SUMMARY)
  let summaries := (List.range parts.length).map oracle
  (summaries, reqs)

/-- The `group_size` selection in `summarize_final_two_step`
(cli.py lines 314-320). -/
def group_size (n : Nat) : Nat :=
  if n ≤ 6 then 3
  else if n ≤ 12 then 4
  else 3

/-- The reduce stage `summarize_final_two_step` (cli.py lines 302-398): slice the partial
summaries into consecutive groups of `group_size`, issue one group-reduce
call per group (in order), then exactly one final combine call over the
newline-joined reduced summaries; its text is returned verbatim.
`oracle k` is the content returned by the k-th call issued by this
function (0-based); the second component lists the issued requests in
order. -/
def summarize_final_two_step (oracle : Nat → String) (partial_summaries : List String)
    (lang : String) : String × List LLMRequest :=
  let n := partial_summaries.length
  let gs := group_size n
  let groups := chunk_list partial_summaries gs
  let reduceReqs := groups.map (fun g =>
    LLMRequest.mk (reduce_system lang) (reduce_user lang (joinNl g)) PART_MAX TEMP_SUMMARY)
  let reduced := (List.range groups.length).map oracle
  let finalReq :=
    LLMRequest.mk (final_system lang) (final_user lang (joinNl reduced)) FINAL_MAX TEMP_SUMMARY
  (oracle groups.length, reduceReqs ++ [finalReq])

/-- The summary stage as `main` runs it (cli.py lines 519-520 / 524-525):
map over chunks, then two-step reduce, with one shared sequence of
completion calls. -/
def summarize_pipeline (oracle : Nat → String) (text : List Char)
    (chunk_size : Nat) (lang : String) : String × List LLMRequest :=
  let mapped := summarize_parts oracle text chunk_size lang
  let fin := summarize_final_two_step (fun i => oracle (mapped.2.length + i)) mapped.1 lang
  (fin.1, mapped.2 ++ fin.2)

/-! ### Stage cache (cli.py lines 509-526, the `[4/4]` block of `main`)

The summary stage keyed on `summary_final.txt`: the file system is the
optional content of that artifact; `reuse` is the user's answer when the
artifact exists; `computed` and `computeCalls` are the content the
summarize pipeline would produce and the number of completion-endpoint
calls it would make.  The result is the returned `final_summary`, the
artifact content after the stage, and the number of completion calls
performed. -/

def summary_stage (file : Option String) (reuse : Bool)
    (computed : String) (computeCalls : Nat) : String × Option String × Nat :=
  match file with
  | some content =>
    if reuse then (content, some content, 0)
    else (computed, some computed, computeCalls)
  | none => (computed, some computed, computeCalls)

/-! ### Lemmas about the chunker -/

theorem chunk_list_aux_congr {α : Type} :
    ∀ (fuel₁ fuel₂ : Nat) (l : List α) (k : Nat), 0 < k →
      l.length ≤ fuel₁ → l.length ≤ fuel₂ →
      chunk_list_aux fuel₁ l k = chunk_list_aux fuel₂ l k := by
  intro fuel₁
  induction fuel₁ with
  | zero =>
    intro fuel₂ l k _ h1 _
    have hl : l = [] := List.eq_nil_of_length_eq_zero (Nat.le_zero.mp h1)
    subst hl
    cases fuel₂ <;> rfl
  | succ f ih =>
    intro fuel₂ l k hk h1 h2
    cases l with
    | nil => cases fuel₂ <;> rfl
    | cons a t =>
      cases fuel₂ with
      | zero => exact absurd h2 (by simp)
      | succ f₂ =>
        simp only [chunk_list_aux]
        have hd : ((a :: t).drop k).length ≤ t.length := by
          rw [List.length_drop, List.length_cons]
          omega
        have h1' : ((a :: t).drop k).length ≤ f := le_trans hd (by simpa using h1)
        have h2' : ((a :: t).drop k).length ≤ f₂ := le_trans hd (by simpa using h2)
        rw [ih f₂ ((a :: t).drop k) k hk h1' h2']

theorem chunk_list_nil {α : Type} (k : Nat) : chunk_list ([] : List α) k = [] := rfl

theorem chunk_list_cons {α : Type} (a : α) (l : List α) (k : Nat) (hk : 0 < k) :
    chunk_list (a :: l) k = (a :: l).take k :: chunk_list ((a :: l).drop k) k := by
  have hd : ((a :: l).drop k).length ≤ l.length := by
    rw [List.length_drop, List.length_cons]
    omega
  show chunk_list_aux (a :: l).length (a :: l) k = _
  simp only [List.length_cons, chunk_list_aux]
  rw [chunk_list_aux_congr l.length ((a :: l).drop k).length ((a :: l).drop k) k hk hd
    (le_refl _)]
  rfl

/-- Induction principle tailored to the chunker: from the empty case and
the cons case with the inductive hypothesis at `drop k`. -/
theorem chunk_induction {α : Type} (k : Nat) (hk : 0 < k) (P : List α → Prop)
    (hnil : P []) (hcons : ∀ a l, P ((a :: l).drop k) → P (a :: l)) :
    ∀ l : List α, P l := by
  have H : ∀ n : Nat, ∀ l : List α, l.length = n → P l := by
    intro n
    induction n using Nat.strong_induction_on with
    | _ n ih =>
      intro l hn
      cases l with
      | nil => exact hnil
      | cons a t =>
        apply hcons
        refine ih ((a :: t).drop k).length ?_ ((a :: t).drop k) rfl
        rw [List.length_drop, List.length_cons]
        subst hn
        simp only [List.length_cons]
        omega
  intro l
  exact H l.length l rfl

theorem chunk_list_flatten {α : Type} (k : Nat) (hk : 0 < k) :
    ∀ l : List α, (chunk_list l k).flatten = l := by
  apply chunk_induction k hk
  · rfl
  · intro a l ih
    rw [chunk_list_cons a l k hk, List.flatten_cons, ih, List.take_append_drop]

theorem chunk_list_eq_nil_iff {α : Type} (k : Nat) (hk : 0 < k) (l : List α) :
    chunk_list l k = [] ↔ l = [] := by
  cases l with
  | nil => simp [chunk_list_nil]
  | cons a t => rw [chunk_list_cons _ _ _ hk]; simp

theorem chunk_list_dropLast_length {α : Type} (k : Nat) (hk : 0 < k) :
    ∀ l : List α, ∀ c ∈ (chunk_list l k).dropLast, c.length = k := by
  apply chunk_induction k hk
  · intro c hc
    simp [chunk_list_nil] at hc
  · intro a l ih c hc
    rw [chunk_list_cons a l k hk] at hc
    rcases hrest : chunk_list ((a :: l).drop k) k with _ | ⟨r, rs⟩
    · rw [hrest] at hc
      simp at hc
    · rw [hrest, List.dropLast_cons₂] at hc
      rcases List.mem_cons.mp hc with h | h
      · subst h
        have hd : (a :: l).drop k ≠ [] := by
          intro hd
          rw [hd] at hrest
          simp [chunk_list_nil] at hrest
        have hlt : k < (a :: l).length := by
          by_contra hle
          push_neg at hle
          exact hd (List.drop_eq_nil_of_le hle)
        rw [List.length_take]
        rw [List.length_cons] at hlt ⊢
        omega
      · apply ih
        rw [hrest]
        exact h

theorem chunk_list_getLast_length {α : Type} (k : Nat) (hk : 0 < k) :
    ∀ l : List α, ∀ c, (chunk_list l k).getLast? = some c →
      c.length = if l.length % k = 0 then k else l.length % k := by
  apply chunk_induction k hk
  · intro c hc
    simp [chunk_list_nil] at hc
  · intro a l ih c hc
    rw [chunk_list_cons a l k hk] at hc
    rcases hrest : chunk_list ((a :: l).drop k) k with _ | ⟨r, rs⟩
    · rw [hrest] at hc
      simp only [List.getLast?_singleton, Option.some.injEq] at hc
      subst hc
      have hdrop : (a :: l).drop k = [] := (chunk_list_eq_nil_iff k hk _).mp hrest
      have hlen : (a :: l).length ≤ k := by simpa using List.drop_eq_nil_iff.mp hdrop
      rw [List.length_take]
      rw [List.length_cons] at hlen ⊢
      rcases Nat.lt_or_ge (l.length + 1) k with hlt | hge
      · rw [if_neg (by rw [Nat.mod_eq_of_lt hlt]; omega)]
        rw [Nat.mod_eq_of_lt hlt]
        omega
      · have heq : l.length + 1 = k := by omega
        rw [heq, Nat.mod_self, if_pos rfl]
        omega
    · rw [hrest, List.getLast?_cons_cons, ← hrest] at hc
      have hres := ih c hc
      have hdrop : (a :: l).drop k ≠ [] := by
        intro hd
        rw [hd] at hrest
        simp [chunk_list_nil] at hrest
      have hklt : k < (a :: l).length := by
        by_contra hle
        push_neg at hle
        exact hdrop (List.drop_eq_nil_of_le hle)
      rw [List.length_drop] at hres
      rw [hres]
      have hmod : ((a :: l).length - k) % k = (a :: l).length % k :=
        (Nat.mod_eq_sub_mod (le_of_lt hklt)).symm
      rw [hmod]

theorem chunk_list_length {α : Type} (k : Nat) (hk : 0 < k) :
    ∀ l : List α, (chunk_list l k).length = (l.length + k - 1) / k := by
  apply chunk_induction k hk
  · show (chunk_list ([] : List α) k).length = _
    rw [chunk_list_nil]
    simp only [List.length_nil]
    exact (Nat.div_eq_of_lt (by omega)).symm
  · intro a l ih
    rw [chunk_list_cons a l k hk, List.length_cons, ih, List.length_drop, List.length_cons]
    rcases le_or_lt (l.length + 1) k with hle | hlt
    · have h0 : l.length + 1 - k = 0 := by omega
      have h1 : (0 + k - 1) / k = 0 := Nat.div_eq_of_lt (by omega)
      have h2 : (l.length + 1 + k - 1) / k = 1 := by
        have hq : l.length + 1 + k - 1 = l.length + k := by omega
        rw [hq, Nat.add_div_right _ hk, Nat.div_eq_of_lt (by omega)]
      rw [h0, h1, h2]
    · have heq : l.length + 1 + k - 1 = (l.length + 1 - k + k - 1) + k := by omega
      rw [heq, Nat.add_div_right _ hk]

/-- C3: for every text and positive `max_size`, the chunks of
`chunk_text` concatenate back to the text, every chunk except possibly
the last has length exactly `max_size`, the last chunk has length in
`[1, max_size]`, and the chunk sequence is empty iff the text is empty. -/
theorem chunk_text_spec (text : List Char) (max_size : Nat) (h : 0 < max_size) :
    (chunk_text text max_size).flatten = text
    ∧ (∀ c ∈ (chunk_text text max_size).dropLast, c.length = max_size)
    ∧ (∀ c, (chunk_text text max_size).getLast? = some c →
        1 ≤ c.length ∧ c.length ≤ max_size)
    ∧ (chunk_text text max_size = [] ↔ text = []) := by
  refine ⟨chunk_list_flatten _ h _, chunk_list_dropLast_length _ h _, ?_, chunk_list_eq_nil_iff _ h _⟩
  intro c hc
  have := chunk_list_getLast_length max_size h text c hc
  have hmod : text.length % max_size < max_size := Nat.mod_lt _ h
  rcases Nat.eq_zero_or_pos (text.length % max_size) with h0 | hpos
  · rw [h0, if_pos rfl] at this
    omega
  · rw [if_neg (by omega)] at this
    omega

/-- C3 witness: the general chunker theorem applied at a concrete text
and size. -/
theorem chunk_text_spec_witness :
    (chunk_text "abcde".toList 2).flatten = "abcde".toList
    ∧ (∀ c ∈ (chunk_text "abcde".toList 2).dropLast, c.length = 2)
    ∧ (∀ c, (chunk_text "abcde".toList 2).getLast? = some c →
        1 ≤ c.length ∧ c.length ≤ 2)
    ∧ (chunk_text "abcde".toList 2 = [] ↔ "abcde".toList = []) :=
  chunk_text_spec "abcde".toList 2 (by decide)

/-! ### Lemmas about the retry loop -/

/-- A response on which the `except` branches of `call_llm` continue the
loop (when attempts remain): a transient HTTP error, or any non-HTTP
exception. -/
def isRetriable : LLMResponse → Bool
  | .success _ => false
  | .httpError code _ => transientCode code
  | .otherError _ => true

/-- The `RuntimeError` that `call_llm` raises when a response's failure
is final. -/
def failOf : LLMResponse → CallResult
  | .success c => .ok c
  | .httpError code body => .fatalHTTP code body
  | .otherError m => .fatalOther m

theorem call_llm_loop_success (endpoint : Nat → LLMResponse) (r attempt : Nat)
    (c : String) (he : endpoint attempt = .success c) :
    call_llm_loop endpoint r attempt = ⟨1, [], .ok c⟩ := by
  cases r with
  | zero => rw [call_llm_loop, he]
  | succ r' => rw [call_llm_loop, he]

theorem call_llm_loop_http_zero (endpoint : Nat → LLMResponse) (attempt : Nat)
    (code : Nat) (body : String) (he : endpoint attempt = .httpError code body) :
    call_llm_loop endpoint 0 attempt = ⟨1, [], .fatalHTTP code body⟩ := by
  rw [call_llm_loop, he]

theorem call_llm_loop_http_retry (endpoint : Nat → LLMResponse) (r attempt : Nat)
    (code : Nat) (body : String) (he : endpoint attempt = .httpError code body)
    (ht : transientCode code = true) :
    call_llm_loop endpoint (r + 1) attempt =
      ⟨(call_llm_loop endpoint r (attempt + 1)).attempts + 1,
       BACKOFF_BASE ^ attempt :: (call_llm_loop endpoint r (attempt + 1)).sleeps,
       (call_llm_loop endpoint r (attempt + 1)).result⟩ := by
  rw [call_llm_loop, he]
  simp only [ht, if_true]

theorem call_llm_loop_http_fatal (endpoint : Nat → LLMResponse) (r attempt : Nat)
    (code : Nat) (body : String) (he : endpoint attempt = .httpError code body)
    (ht : transientCode code = false) :
    call_llm_loop endpoint (r + 1) attempt = ⟨1, [], .fatalHTTP code body⟩ := by
  rw [call_llm_loop, he]
  simp only [ht, Bool.false_eq_true, if_false]

theorem call_llm_loop_other_zero (endpoint : Nat → LLMResponse) (attempt : Nat)
    (m : String) (he : endpoint attempt = .otherError m) :
    call_llm_loop endpoint 0 attempt = ⟨1, [], .fatalOther m⟩ := by
  rw [call_llm_loop, he]

theorem call_llm_loop_other_retry (endpoint : Nat → LLMResponse) (r attempt : Nat)
    (m : String) (he : endpoint attempt = .otherError m) :
    call_llm_loop endpoint (r + 1) attempt =
      ⟨(call_llm_loop endpoint r (attempt + 1)).attempts + 1,
       BACKOFF_BASE ^ attempt :: (call_llm_loop endpoint r (attempt + 1)).sleeps,
       (call_llm_loop endpoint r (attempt + 1)).result⟩ := by
  rw [call_llm_loop, he]

theorem backoff_range_shift (attempt m : Nat) :
    (List.range (m + 1)).map (fun i => BACKOFF_BASE ^ (attempt + i)) =
      BACKOFF_BASE ^ attempt ::
        (List.range m).map (fun i => BACKOFF_BASE ^ (attempt + 1 + i)) := by
  rw [List.range_succ_eq_map, List.map_cons, List.map_map]
  congr 1
  apply List.map_congr_left
  intro i _
  simp only [Function.comp_apply]
  congr 1
  omega

theorem call_llm_loop_all_retriable (endpoint : Nat → LLMResponse) :
    ∀ (r attempt : Nat),
      (∀ j, attempt ≤ j → j ≤ attempt + r → isRetriable (endpoint j) = true) →
      call_llm_loop endpoint r attempt =
        ⟨r + 1, (List.range r).map (fun i => BACKOFF_BASE ^ (attempt + i)),
         failOf (endpoint (attempt + r))⟩ := by
  intro r
  induction r with
  | zero =>
    intro attempt h
    have ha := h attempt (le_refl _) (by omega)
    cases he : endpoint attempt with
    | success c => rw [he] at ha; simp [isRetriable] at ha
    | httpError code body =>
      rw [call_llm_loop_http_zero endpoint attempt code body he]
      simp [failOf, he]
    | otherError m =>
      rw [call_llm_loop_other_zero endpoint attempt m he]
      simp [failOf, he]
  | succ r ih =>
    intro attempt h
    have ha := h attempt (le_refl _) (by omega)
    have hrest := ih (attempt + 1) (fun j h1 h2 => h j (by omega) (by omega))
    have hshift := backoff_range_shift attempt r
    have hlast : attempt + 1 + r = attempt + (r + 1) := by omega
    cases he : endpoint attempt with
    | success c => rw [he] at ha; simp [isRetriable] at ha
    | httpError code body =>
      rw [he] at ha
      simp only [isRetriable] at ha
      rw [call_llm_loop_http_retry endpoint r attempt code body he ha, hrest, hshift, hlast]
    | otherError m =>
      rw [call_llm_loop_other_retry endpoint r attempt m he, hrest, hshift, hlast]

theorem call_llm_loop_attempts_pos (endpoint : Nat → LLMResponse) :
    ∀ (r attempt : Nat), 1 ≤ (call_llm_loop endpoint r attempt).attempts := by
  intro r attempt
  cases he : endpoint attempt with
  | success c => rw [call_llm_loop_success endpoint r attempt c he]
  | httpError code body =>
    cases r with
    | zero => rw [call_llm_loop_http_zero endpoint attempt code body he]
    | succ r' =>
      by_cases ht : transientCode code = true
      · rw [call_llm_loop_http_retry endpoint r' attempt code body he ht]
        simp
      · rw [call_llm_loop_http_fatal endpoint r' attempt code body he
          (by simpa using ht)]
  | otherError m =>
    cases r with
    | zero => rw [call_llm_loop_other_zero endpoint attempt m he]
    | succ r' =>
      rw [call_llm_loop_other_retry endpoint r' attempt m he]
      simp

theorem call_llm_loop_early_abort (endpoint : Nat → LLMResponse) :
    ∀ (r attempt : Nat), (call_llm_loop endpoint r attempt).attempts < r + 1 →
      (∃ c, (call_llm_loop endpoint r attempt).result = .ok c)
      ∨ (∃ code body, (call_llm_loop endpoint r attempt).result = .fatalHTTP code body
          ∧ transientCode code = false) := by
  intro r
  induction r with
  | zero =>
    intro attempt h
    exact absurd (call_llm_loop_attempts_pos endpoint 0 attempt) (by omega)
  | succ r ih =>
    intro attempt h
    cases he : endpoint attempt with
    | success c =>
      rw [call_llm_loop_success endpoint (r + 1) attempt c he]
      exact Or.inl ⟨c, rfl⟩
    | httpError code body =>
      by_cases ht : transientCode code = true
      · rw [call_llm_loop_http_retry endpoint r attempt code body he ht] at h ⊢
        exact ih (attempt + 1) (by simp only at h; omega)
      · rw [call_llm_loop_http_fatal endpoint r attempt code body he (by simpa using ht)]
        exact Or.inr ⟨code, body, rfl, by simpa using ht⟩
    | otherError m =>
      rw [call_llm_loop_other_retry endpoint r attempt m he] at h ⊢
      exact ih (attempt + 1) (by simp only at h; omega)

/-- C2: against an endpoint whose every response is HTTP 503, `call_llm`
performs exactly `retries` attempts, sleeps `BACKOFF_BASE ^ attempt`
before retry `attempt + 1` for `attempt = 1 … retries − 1`, and after the
final attempt raises an error carrying the HTTP status and the response
body of the last attempt. -/
theorem call_llm_always_503 (endpoint : Nat → LLMResponse) (body : Nat → String)
    (retries : Nat) (hr : 1 ≤ retries)
    (he : ∀ k, 1 ≤ k → k ≤ retries → endpoint k = .httpError 503 (body k)) :
    (call_llm endpoint retries).attempts = retries
    ∧ (call_llm endpoint retries).sleeps =
        (List.range (retries - 1)).map (fun i => BACKOFF_BASE ^ (1 + i))
    ∧ (call_llm endpoint retries).result = .fatalHTTP 503 (body retries) := by
  obtain ⟨r, rfl⟩ : ∃ r, retries = r + 1 := ⟨retries - 1, by omega⟩
  have hloop := call_llm_loop_all_retriable endpoint r 1 (fun j h1 h2 => by
    rw [he j h1 (by omega)]
    rfl)
  rw [show call_llm endpoint (r + 1) = call_llm_loop endpoint r 1 from rfl, hloop]
  refine ⟨rfl, by simp, ?_⟩
  have h1r : 1 + r = r + 1 := by omega
  rw [h1r, he (r + 1) (by omega) (by omega)]
  rfl

/-- C2 witness: the retry-bound theorem applied to `RETRIES = 4` and the
constant-body all-503 endpoint; the slept delays are
`BACKOFF_BASE ^ 1, BACKOFF_BASE ^ 2, BACKOFF_BASE ^ 3`. -/
theorem call_llm_always_503_witness :
    (call_llm (fun _ => .httpError 503 "overloaded") RETRIES).attempts = RETRIES
    ∧ (call_llm (fun _ => .httpError 503 "overloaded") RETRIES).sleeps =
        (List.range (RETRIES - 1)).map (fun i => BACKOFF_BASE ^ (1 + i))
    ∧ (call_llm (fun _ => .httpError 503 "overloaded") RETRIES).result =
        .fatalHTTP 503 "overloaded" :=
  call_llm_always_503 (fun _ => .httpError 503 "overloaded") (fun _ => "overloaded")
    RETRIES (by decide) (fun k _ _ => rfl)

theorem call_llm_loop_first_nontransient (endpoint : Nat → LLMResponse) :
    ∀ (m r attempt code : Nat) (body : String), m ≤ r →
      (∀ i, i < m → isRetriable (endpoint (attempt + i)) = true) →
      endpoint (attempt + m) = .httpError code body →
      transientCode code = false →
      call_llm_loop endpoint r attempt =
        ⟨m + 1, (List.range m).map (fun i => BACKOFF_BASE ^ (attempt + i)),
         .fatalHTTP code body⟩ := by
  intro m
  induction m with
  | zero =>
    intro r attempt code body hm hpre he hc
    rw [Nat.add_zero] at he
    cases r with
    | zero => rw [call_llm_loop_http_zero endpoint attempt code body he]; rfl
    | succ r' => rw [call_llm_loop_http_fatal endpoint r' attempt code body he hc]; rfl
  | succ m ih =>
    intro r attempt code body hm hpre he hc
    obtain ⟨r', rfl⟩ : ∃ r', r = r' + 1 := ⟨r - 1, by omega⟩
    have h0 := hpre 0 (by omega)
    rw [Nat.add_zero] at h0
    have hpre' : ∀ i, i < m → isRetriable (endpoint (attempt + 1 + i)) = true := by
      intro i hi
      have hh := hpre (i + 1) (by omega)
      rwa [show attempt + (i + 1) = attempt + 1 + i by omega] at hh
    have he' : endpoint (attempt + 1 + m) = .httpError code body := by
      rwa [show attempt + 1 + m = attempt + (m + 1) by omega]
    have hrec := ih r' (attempt + 1) code body (by omega) hpre' he' hc
    cases hres : endpoint attempt with
    | success c =>
      rw [hres] at h0
      simp [isRetriable] at h0
    | httpError code0 body0 =>
      have ht : transientCode code0 = true := by
        rw [hres] at h0
        simpa [isRetriable] using h0
      rw [call_llm_loop_http_retry endpoint r' attempt code0 body0 hres ht, hrec,
        backoff_range_shift]
    | otherError msg =>
      rw [call_llm_loop_other_retry endpoint r' attempt msg hres, hrec, backoff_range_shift]

/-- C6: the first response carrying an HTTP status outside
{429, 500, 503, 504} makes `call_llm` fail right there, with no retry and
no sleep after it, raising an error that carries the status code and the
response body; in particular a non-transient status on the very first
attempt fails with one attempt and no sleep at all. -/
theorem call_llm_nontransient_immediate (endpoint : Nat → LLMResponse)
    (j code : Nat) (body : String) (retries : Nat)
    (hj1 : 1 ≤ j) (hjr : j ≤ retries)
    (hpre : ∀ i, 1 ≤ i → i < j → isRetriable (endpoint i) = true)
    (he : endpoint j = .httpError code body)
    (hc : transientCode code = false) :
    call_llm endpoint retries =
      ⟨j, (List.range (j - 1)).map (fun i => BACKOFF_BASE ^ (1 + i)),
       .fatalHTTP code body⟩ := by
  obtain ⟨r, rfl⟩ : ∃ r, retries = r + 1 := ⟨retries - 1, by omega⟩
  obtain ⟨m, rfl⟩ : ∃ m, j = m + 1 := ⟨j - 1, by omega⟩
  show call_llm_loop endpoint r 1 = _
  have hmain := call_llm_loop_first_nontransient endpoint m r 1 code body (by omega)
    (fun i hi => hpre (1 + i) (by omega) (by omega))
    (by rwa [show 1 + m = m + 1 by omega]) hc
  rw [hmain]
  simp

/-- C6 witness: with the default budget, a 404 on the very first attempt
fails with one attempt and no sleep, and a 404 right after one transient
503 fails with two attempts and the single backoff sleep already slept
for the 503. -/
theorem call_llm_nontransient_immediate_witness :
    call_llm (fun _ => .httpError 404 "not found") RETRIES =
      ⟨1, [], .fatalHTTP 404 "not found"⟩
    ∧ call_llm (fun k => if k = 1 then .httpError 503 "busy" else .httpError 404 "not found")
        RETRIES =
      ⟨2, (List.range 1).map (fun i => BACKOFF_BASE ^ (1 + i)),
       .fatalHTTP 404 "not found"⟩ :=
  ⟨by
    have h := call_llm_nontransient_immediate (fun _ => .httpError 404 "not found")
      1 404 "not found" RETRIES (by decide) (by decide)
      (fun i h1 h2 => absurd h2 (by omega)) rfl (by decide)
    simpa using h,
   call_llm_nontransient_immediate
    (fun k => if k = 1 then .httpError 503 "busy" else .httpError 404 "not found")
    2 404 "not found" RETRIES (by decide) (by decide)
    (fun i h1 h2 => by
      have hi : i = 1 := by omega
      subst hi
      decide)
    rfl (by decide)⟩

/-- C9: every exception that is not an HTTP error is treated as transient:
an endpoint that keeps raising non-HTTP exceptions is retried with the
exponential backoff through all `retries` attempts, and the final error
wraps the last exception's text; moreover a `call_llm` run that stops
before exhausting the attempt budget stopped either on success or on a
non-transient HTTP status — no other failure kind aborts early. -/
theorem call_llm_other_errors_retried (endpoint : Nat → LLMResponse)
    (msg : Nat → String) (retries : Nat) (hr : 1 ≤ retries) :
    ((∀ k, 1 ≤ k → k ≤ retries → endpoint k = .otherError (msg k)) →
      (call_llm endpoint retries).attempts = retries
      ∧ (call_llm endpoint retries).sleeps =
          (List.range (retries - 1)).map (fun i => BACKOFF_BASE ^ (1 + i))
      ∧ (call_llm endpoint retries).result = .fatalOther (msg retries))
    ∧ ((call_llm endpoint retries).attempts < retries →
      (∃ c, (call_llm endpoint retries).result = .ok c)
      ∨ (∃ code body, (call_llm endpoint retries).result = .fatalHTTP code body
          ∧ transientCode code = false)) := by
  obtain ⟨r, rfl⟩ : ∃ r, retries = r + 1 := ⟨retries - 1, by omega⟩
  constructor
  · intro he
    have hloop := call_llm_loop_all_retriable endpoint r 1 (fun j h1 h2 => by
      rw [he j h1 (by omega)]
      rfl)
    rw [show call_llm endpoint (r + 1) = call_llm_loop endpoint r 1 from rfl, hloop]
    refine ⟨rfl, by simp, ?_⟩
    have h1r : 1 + r = r + 1 := by omega
    rw [h1r, he (r + 1) (by omega) (by omega)]
    rfl
  · intro hlt
    exact call_llm_loop_early_abort endpoint r 1 hlt

/-- C9 witness: with the default budget of 4 attempts and an endpoint
whose every response is a distinct transport error, all four attempts are
performed, three backoff delays are slept, and the raised error wraps the
last exception's text. -/
theorem call_llm_other_errors_retried_witness :
    (call_llm (fun k => .otherError (if k = 4 then "timeout" else "reset")) RETRIES).attempts
        = RETRIES
    ∧ (call_llm (fun k => .otherError (if k = 4 then "timeout" else "reset")) RETRIES).sleeps =
        (List.range (RETRIES - 1)).map (fun i => BACKOFF_BASE ^ (1 + i))
    ∧ (call_llm (fun k => .otherError (if k = 4 then "timeout" else "reset")) RETRIES).result =
        .fatalOther "timeout" :=
  (call_llm_other_errors_retried (fun k => .otherError (if k = 4 then "timeout" else "reset"))
    (fun k => if k = 4 then "timeout" else "reset") RETRIES (by decide)).1
    (fun k _ _ => rfl)

/-! ### Reduce-stage and pipeline theorems -/

theorem chunk_list_cons' {α : Type} (l : List α) (k : Nat) (hl : l ≠ []) (hk : 0 < k) :
    chunk_list l k = l.take k :: chunk_list (l.drop k) k := by
  cases l with
  | nil => exact absurd rfl hl
  | cons a t => exact chunk_list_cons a t k hk

theorem group_size_pos (n : Nat) : 0 < group_size n := by
  unfold group_size
  split
  · omega
  split <;> omega

/-- C4: the Reduce Stage picks `group_size` 3 / 4 / 3 according to whether
`n ≤ 6`, `7 ≤ n ≤ 12`, or `n > 12`; it issues one group-reduce call per
consecutive group, `⌈n / group_size⌉` of them, before the single final
combine call; the last group has size `n mod group_size`, or `group_size`
when that remainder is zero; and for a single partial summary one group
of size 1 is reduced before the final combine call. -/
theorem reduce_grouping (partial_summaries : List String) (lang : String)
    (oracle : Nat → String) :
    group_size partial_summaries.length =
      (if partial_summaries.length ≤ 6 then 3
       else if partial_summaries.length ≤ 12 then 4 else 3)
    ∧ (summarize_final_two_step oracle partial_summaries lang).2.dropLast =
        (chunk_list partial_summaries (group_size partial_summaries.length)).map (fun g =>
          ⟨reduce_system lang, reduce_user lang (joinNl g), PART_MAX, TEMP_SUMMARY⟩)
    ∧ (chunk_list partial_summaries (group_size partial_summaries.length)).length =
        (partial_summaries.length + group_size partial_summaries.length - 1) /
          group_size partial_summaries.length
    ∧ (∀ g, (chunk_list partial_summaries (group_size partial_summaries.length)).getLast?
          = some g →
        g.length =
          if partial_summaries.length % group_size partial_summaries.length = 0
          then group_size partial_summaries.length
          else partial_summaries.length % group_size partial_summaries.length)
    ∧ (∀ p, partial_summaries = [p] →
        (summarize_final_two_step oracle partial_summaries lang).2 =
          [⟨reduce_system lang, reduce_user lang (joinNl [p]), PART_MAX, TEMP_SUMMARY⟩,
           ⟨final_system lang, final_user lang (joinNl [oracle 0]), FINAL_MAX, TEMP_SUMMARY⟩]) := by
  refine ⟨rfl, ?_, ?_, ?_, ?_⟩
  · show (List.map _ _ ++ [_]).dropLast = _
    rw [List.dropLast_concat]
  · exact chunk_list_length _ (group_size_pos _) _
  · exact chunk_list_getLast_length _ (group_size_pos _) _
  · intro p hp
    subst hp
    rfl

/-- C4 witness: the grouping theorem applied at one concrete partial
summary, a concrete language and a concrete oracle; the trace is one
group-reduce call over the single group followed by the final combine
call. -/
theorem reduce_grouping_witness :
    (summarize_final_two_step (fun k => toString k) ["only part"] "en").2 =
      [⟨reduce_system "en", reduce_user "en" (joinNl ["only part"]), PART_MAX, TEMP_SUMMARY⟩,
       ⟨final_system "en", final_user "en" (joinNl [toString 0]), FINAL_MAX, TEMP_SUMMARY⟩] :=
  (reduce_grouping ["only part"] "en" (fun k => toString k)).2.2.2.2 "only part" rfl

/-- C10: on zero partial summaries the Reduce Stage makes no group-reduce
call and still makes exactly one final combine call, whose user prompt
carries an empty summaries section; that call's text is returned as the
final summary. -/
theorem reduce_empty_partials (oracle : Nat → String) (lang : String) :
    summarize_final_two_step oracle [] lang =
      (oracle 0, [⟨final_system lang, final_user lang "", FINAL_MAX, TEMP_SUMMARY⟩]) :=
  rfl

/-- C5: the summary stage persists what it returns, and a second run with
reuse accepted returns content identical to the artifact persisted by the
first run while performing zero completion-endpoint calls. -/
theorem summary_stage_cache (file : Option String) (reuse : Bool)
    (computed1 computed2 : String) (calls1 calls2 : Nat) :
    (summary_stage file reuse computed1 calls1).2.1 =
        some (summary_stage file reuse computed1 calls1).1
    ∧ summary_stage (summary_stage file reuse computed1 calls1).2.1 true computed2 calls2 =
        ((summary_stage file reuse computed1 calls1).1,
         (summary_stage file reuse computed1 calls1).2.1, 0) := by
  cases file <;> cases reuse <;> simp [summary_stage]

/-- C8: for any 9000-character transcript with chunk size 4000 the
pipeline produces 3 chunks of lengths 4000, 4000 and 1000, hence 3
partial summaries with one completion call per chunk in order; the
reduce stage uses `group_size = 3` and issues exactly one group-reduce
call followed by exactly one final combine call, whose text (the fifth
completion response) is returned. -/
theorem pipeline_9000 (text : List Char) (lang : String) (oracle : Nat → String)
    (h : text.length = 9000) :
    (chunk_text text 4000).map List.length = [4000, 4000, 1000]
    ∧ (summarize_parts oracle text 4000 lang).1 = [oracle 0, oracle 1, oracle 2]
    ∧ (summarize_parts oracle text 4000 lang).2 =
        (chunk_text text 4000).map (fun part =>
          ⟨part_system lang, part_user lang (String.mk part), PART_MAX, TEMP_SUMMARY⟩)
    ∧ group_size 3 = 3
    ∧ (summarize_pipeline oracle text 4000 lang).2 =
        (summarize_parts oracle text 4000 lang).2 ++
          [⟨reduce_system lang, reduce_user lang (joinNl [oracle 0, oracle 1, oracle 2]),
            PART_MAX, TEMP_SUMMARY⟩,
           ⟨final_system lang, final_user lang (joinNl [oracle 3]), FINAL_MAX, TEMP_SUMMARY⟩]
    ∧ (summarize_pipeline oracle text 4000 lang).1 = oracle 4 := by
  have h1 : text ≠ [] := by
    intro hx
    rw [hx] at h
    simp at h
  have hd1 : (text.drop 4000).length = 5000 := by
    rw [List.length_drop, h]
  have hd2 : ((text.drop 4000).drop 4000).length = 1000 := by
    rw [List.length_drop, hd1]
  have hd3 : (((text.drop 4000).drop 4000).drop 4000).length = 0 := by
    rw [List.length_drop, hd2]
  have hchunks : chunk_text text 4000 =
      [text.take 4000, (text.drop 4000).take 4000, ((text.drop 4000).drop 4000).take 4000] := by
    show chunk_list text 4000 = _
    rw [chunk_list_cons' text 4000 h1 (by omega)]
    rw [chunk_list_cons' (text.drop 4000) 4000 (by intro hx; rw [hx] at hd1; simp at hd1)
      (by omega)]
    rw [chunk_list_cons' ((text.drop 4000).drop 4000) 4000
      (by intro hx; rw [hx] at hd2; simp at hd2) (by omega)]
    rw [List.eq_nil_of_length_eq_zero hd3, chunk_list_nil]
  have hlens : (chunk_text text 4000).map List.length = [4000, 4000, 1000] := by
    rw [hchunks]
    simp only [List.map_cons, List.map_nil, List.length_take]
    rw [h, hd1, hd2]
    norm_num
  refine ⟨hlens, ?_, rfl, rfl, ?_, ?_⟩
  · show (List.range (chunk_text text 4000).length).map oracle = _
    have : (chunk_text text 4000).length = 3 := by
      have := congrArg List.length hlens
      simpa using this
    rw [this]
    rfl
  · show (summarize_parts oracle text 4000 lang).2 ++
        (summarize_final_two_step _ (summarize_parts oracle text 4000 lang).1 lang).2 = _
    congr 1
    have hp1 : (summarize_parts oracle text 4000 lang).1 = [oracle 0, oracle 1, oracle 2] := by
      show (List.range (chunk_text text 4000).length).map oracle = _
      have : (chunk_text text 4000).length = 3 := by
        have := congrArg List.length hlens
        simpa using this
      rw [this]
      rfl
    have hp2 : (summarize_parts oracle text 4000 lang).2.length = 3 := by
      show ((chunk_text text 4000).map _).length = 3
      rw [List.length_map]
      have := congrArg List.length hlens
      simpa using this
    rw [hp1, hp2]
    rfl
  · show (summarize_final_two_step
        (fun i => oracle ((summarize_parts oracle text 4000 lang).2.length + i))
        (summarize_parts oracle text 4000 lang).1 lang).1 = oracle 4
    have hp1 : (summarize_parts oracle text 4000 lang).1 = [oracle 0, oracle 1, oracle 2] := by
      show (List.range (chunk_text text 4000).length).map oracle = _
      have : (chunk_text text 4000).length = 3 := by
        have := congrArg List.length hlens
        simpa using this
      rw [this]
      rfl
    have hp2 : (summarize_parts oracle text 4000 lang).2.length = 3 := by
      show ((chunk_text text 4000).map _).length = 3
      rw [List.length_map]
      have := congrArg List.length hlens
      simpa using this
    rw [hp1, hp2]
    rfl

/-- C8 witness: the end-to-end scenario theorem applied to the concrete
9000-character transcript made of the letter x, in English. -/
theorem pipeline_9000_witness :
    (chunk_text (List.replicate 9000 'x') 4000).map List.length = [4000, 4000, 1000]
    ∧ (summarize_parts (fun k => toString k) (List.replicate 9000 'x') 4000 "en").1 =
        [toString 0, toString 1, toString 2]
    ∧ (summarize_parts (fun k => toString k) (List.replicate 9000 'x') 4000 "en").2 =
        (chunk_text (List.replicate 9000 'x') 4000).map (fun part =>
          ⟨part_system "en", part_user "en" (String.mk part), PART_MAX, TEMP_SUMMARY⟩)
    ∧ group_size 3 = 3
    ∧ (summarize_pipeline (fun k => toString k) (List.replicate 9000 'x') 4000 "en").2 =
        (summarize_parts (fun k => toString k) (List.replicate 9000 'x') 4000 "en").2 ++
          [⟨reduce_system "en", reduce_user "en" (joinNl [toString 0, toString 1, toString 2]),
            PART_MAX, TEMP_SUMMARY⟩,
           ⟨final_system "en", final_user "en" (joinNl [toString 3]), FINAL_MAX, TEMP_SUMMARY⟩]
    ∧ (summarize_pipeline (fun k => toString k) (List.replicate 9000 'x') 4000 "en").1 =
        toString 4 :=
  pipeline_9000 (List.replicate 9000 'x') "en" (fun k => toString k)
    (List.length_replicate 9000 'x')

/-! ### Lemmas about the language gate -/

theorem wordTokensAux_mem_acc : ∀ (s acc : List Char) (x : Char), x ∈ acc →
    ∃ t ∈ wordTokensAux s acc, x ∈ t := by
  intro s
  induction s with
  | nil =>
    intro acc x hx
    cases acc with
    | nil => exact absurd hx (List.not_mem_nil x)
    | cons a as =>
      refine ⟨(a :: as).reverse, ?_, ?_⟩
      · rw [wordTokensAux]
        simp
      · rw [List.mem_reverse]
        exact hx
  | cons c rest ih =>
    intro acc x hx
    rw [wordTokensAux]
    by_cases hw : isWordChar c = true
    · rw [if_pos hw]
      exact ih (c :: acc) x (List.mem_cons_of_mem c hx)
    · rw [if_neg hw]
      cases acc with
      | nil => exact absurd hx (List.not_mem_nil x)
      | cons a as =>
        rw [if_neg (by simp)]
        exact ⟨(a :: as).reverse, List.mem_cons_self _ _, by
          rw [List.mem_reverse]
          exact hx⟩

theorem wordTokensAux_covers : ∀ (s acc : List Char) (c : Char), c ∈ s →
    isWordChar c = true → ∃ t ∈ wordTokensAux s acc, c ∈ t := by
  intro s
  induction s with
  | nil =>
    intro acc c hc _
    exact absurd hc (List.not_mem_nil c)
  | cons d rest ih =>
    intro acc c hc hw
    rcases List.mem_cons.mp hc with rfl | hc'
    · rw [wordTokensAux, if_pos hw]
      exact wordTokensAux_mem_acc rest (c :: acc) c (List.mem_cons_self c acc)
    · rw [wordTokensAux]
      by_cases hd : isWordChar d = true
      · rw [if_pos hd]
        exact ih (d :: acc) c hc' hw
      · rw [if_neg hd]
        cases acc with
        | nil =>
          rw [if_pos (by simp)]
          exact ih [] c hc' hw
        | cons a as =>
          rw [if_neg (by simp)]
          obtain ⟨t, ht, hct⟩ := ih [] c hc' hw
          exact ⟨t, List.mem_cons_of_mem _ ht, hct⟩

/-- Every word character occurring in a text lies inside one of its word
tokens. -/
theorem wordTokens_covers (s : List Char) (c : Char) (hc : c ∈ s)
    (hw : isWordChar c = true) : ∃ t ∈ wordTokens s, c ∈ t :=
  wordTokensAux_covers s [] c hc hw

theorem countStop_eq_zero (stop : List (List Char)) (s : List Char)
    (h : ∀ t ∈ wordTokens s, t ∉ stop) : countStop stop s = 0 := by
  unfold countStop
  rw [List.length_eq_zero, List.filter_eq_nil_iff]
  intro t ht
  simp only [decide_eq_true_eq]
  exact h t ht

theorem plCharHits_eq_zero (s : List Char) (h : ∀ c ∈ s, c ∉ PL_CHARS) :
    plCharHits s = 0 := by
  unfold plCharHits
  rw [List.length_eq_zero, List.filter_eq_nil_iff]
  intro c hc
  simp only [decide_eq_true_eq]
  exact h c hc

theorem pl_en_disjoint : ∀ t ∈ plStopWords, t ∉ enStopWords := by decide

theorem en_pl_disjoint : ∀ t ∈ enStopWords, t ∉ plStopWords := by decide

theorem en_no_diacritics : ∀ t ∈ enStopWords, ∀ c ∈ t, c ∉ PL_CHARS := by decide

theorem en_has_nonDiacritic : ∀ t ∈ enStopWords, ∃ c ∈ t, c ∉ PL_CHARS := by decide

theorem pl_lower_closed : ∀ c ∈ PL_CHARS, toLowerPl c ∈ PL_CHARS := by decide

/-- C7: the language gate is a total function into the two tags, trivially
deterministic, and returns the primary tag exactly when
`2 * diacritic hits + primary whole-word matches ≥ max(2, secondary
whole-word matches)`. -/
theorem detect_lang_threshold (sample other : List Char) :
    (detect_lang_from_text sample = "pl" ∨ detect_lang_from_text sample = "en")
    ∧ (sample = other → detect_lang_from_text sample = detect_lang_from_text other)
    ∧ (detect_lang_from_text sample = "pl" ↔
        max 2 (countStop enStopWords (sample.map toLowerPl)) ≤
          2 * plCharHits sample + countStop plStopWords (sample.map toLowerPl)) := by
  have hdef : detect_lang_from_text sample =
      if max 2 (countStop enStopWords (sample.map toLowerPl)) ≤
          plCharHits sample * 2 + countStop plStopWords (sample.map toLowerPl)
      then "pl" else "en" := rfl
  refine ⟨?_, fun h => by rw [h], ?_⟩
  · rw [hdef]
    split
    · exact Or.inl rfl
    · exact Or.inr rfl
  · rw [hdef]
    by_cases hc : max 2 (countStop enStopWords (sample.map toLowerPl)) ≤
        plCharHits sample * 2 + countStop plStopWords (sample.map toLowerPl)
    · rw [if_pos hc]
      exact ⟨fun _ => by omega, fun _ => rfl⟩
    · rw [if_neg hc]
      constructor
      · intro hx
        exact absurd hx (by decide)
      · intro hx
        exact absurd (by omega : max 2 (countStop enStopWords (sample.map toLowerPl)) ≤
          plCharHits sample * 2 + countStop plStopWords (sample.map toLowerPl)) hc

/-- C7 witness: the threshold characterization applied at a concrete
sample. -/
theorem detect_lang_threshold_witness :
    (detect_lang_from_text "że nie się".toList = "pl"
      ∨ detect_lang_from_text "że nie się".toList = "en")
    ∧ detect_lang_from_text "że nie się".toList = detect_lang_from_text "że nie się".toList :=
  ⟨(detect_lang_threshold "że nie się".toList "że nie się".toList).1,
   (detect_lang_threshold "że nie się".toList "że nie się".toList).2.1 rfl⟩

/-- C1 fails as stated: the sample consisting of the single Polish stop
word i contains only primary-language stop words (and no foreign
material at all), yet the gate classifies it as secondary, because its
primary score 1 stays below the fixed threshold 2. -/
theorem detect_only_pl_stopwords_cex :
    (∀ t ∈ wordTokens (("i".toList).map toLowerPl),
        t ∈ plStopWords ∨ ∀ c ∈ t, c ∈ PL_CHARS)
    ∧ detect_lang_from_text "i".toList ≠ "pl"
    ∧ detect_lang_from_text "i".toList = "en" := by decide

/-- C1 (amended): a sample whose word tokens are all primary-language
stop words or runs of primary diacritics classifies as primary provided
its primary score reaches the threshold 2 — at least one diacritic
character or at least two stop-word matches; a sample containing only
secondary-language stop words always classifies as secondary. -/
theorem detect_stopword_samples :
    (∀ sample : List Char,
        (∀ t ∈ wordTokens (sample.map toLowerPl),
            t ∈ plStopWords ∨ ∀ c ∈ t, c ∈ PL_CHARS) →
        (1 ≤ plCharHits sample ∨ 2 ≤ countStop plStopWords (sample.map toLowerPl)) →
        detect_lang_from_text sample = "pl")
    ∧ (∀ sample : List Char,
        (∀ t ∈ wordTokens (sample.map toLowerPl), t ∈ enStopWords) →
        detect_lang_from_text sample = "en") := by
  constructor
  · intro sample hpl hscore
    have hen : countStop enStopWords (sample.map toLowerPl) = 0 := by
      apply countStop_eq_zero
      intro t ht hmem
      rcases hpl t ht with hp | hd
      · exact pl_en_disjoint t hp hmem
      · obtain ⟨c, hc, hnc⟩ := en_has_nonDiacritic t hmem
        exact hnc (hd c hc)
    have hdef : detect_lang_from_text sample =
        if max 2 (countStop enStopWords (sample.map toLowerPl)) ≤
            plCharHits sample * 2 + countStop plStopWords (sample.map toLowerPl)
        then "pl" else "en" := rfl
    rw [hdef, hen]
    rcases hscore with h1 | h2
    · rw [if_pos (by omega)]
    · rw [if_pos (by omega)]
  · intro sample hen
    have hpl0 : countStop plStopWords (sample.map toLowerPl) = 0 :=
      countStop_eq_zero _ _ (fun t ht hmem => en_pl_disjoint t (hen t ht) hmem)
    have hch : plCharHits sample = 0 := by
      apply plCharHits_eq_zero
      intro c hc hcp
      have hlc : toLowerPl c ∈ sample.map toLowerPl := List.mem_map_of_mem toLowerPl hc
      have hlp : toLowerPl c ∈ PL_CHARS := pl_lower_closed c hcp
      have hw : isWordChar (toLowerPl c) = true := by
        simp [isWordChar, hlp]
      obtain ⟨t, ht, hmem⟩ := wordTokens_covers (sample.map toLowerPl) (toLowerPl c) hlc hw
      exact en_no_diacritics t (hen t ht) (toLowerPl c) hmem hlp
    have hdef : detect_lang_from_text sample =
        if max 2 (countStop enStopWords (sample.map toLowerPl)) ≤
            plCharHits sample * 2 + countStop plStopWords (sample.map toLowerPl)
        then "pl" else "en" := rfl
    rw [hdef, hpl0, hch]
    rw [if_neg (by omega)]

/-- C1 witness: the amended theorem applied at a concrete only-Polish
sample carrying diacritics and a concrete only-English sample. -/
theorem detect_stopword_samples_witness :
    detect_lang_from_text "że nie".toList = "pl"
    ∧ detect_lang_from_text "the and".toList = "en" :=
  ⟨detect_stopword_samples.1 "że nie".toList (by decide) (by decide),
   detect_stopword_samples.2 "the and".toList (by decide)⟩

end MeetingApp
